import Mathlib

/-!
Shallow embedding of the `cg_stats` component of rust-motd
(`src/components/cg_stats.rs`): snapshot capture, persistence, delta
computation, label policy and the prepare/print contract.

Modelling conventions:
* `u64` counters are `Nat`; the `as i64` casts and the `i64` subtraction at
  `cg_stats.rs:197` are modelled exactly (twos-complement wrap `wrapS64`).
* `f64` loads are modelled as exact rationals `ℚ`; the divisions in the
  source are exact in every scenario the spec states.
* `HashMap String CgStat` is an association list `List (String × Nat)`
  (the single field `usage_usec` stands for `CgStat`); `keys().sorted()`
  is insertion sort over the key list.
* Filesystem / host effects (`available_parallelism`, `read_cg_state`,
  `fs::read_to_string` + `toml::from_str`, `fs::write`) are injected
  through an environment record `Env`; `prepare_or_error` is a pure
  function of that environment that also reports whether the state file
  ended up holding the new snapshot.
* Rust `String::truncate` (panics off a char boundary) is `Option`-valued.
-/

/-- Errors of one invocation (`Box<dyn Error>` narrowed to the cases the
component can produce). `nonMonotonicClock` is the `SystemTimeError` of
`SystemTime::duration_since`; `writeFailed` is the `fs::write` error;
`other` stands for injected host failures. -/
inductive CgError where
  | nonMonotonicClock
  | writeFailed
  | other
deriving DecidableEq, Repr

/-- A snapshot map: cgroup name → `usage_usec` counter (`HashMap<String, CgStat>`). -/
abbrev CgMap := List (String × Nat)

/-- Structure `State` of cg_stats.rs:143: capture timestamp (microseconds) plus the
per-category counter maps. -/
structure CgState where
  time : Nat
  user : CgMap
  system : CgMap
deriving DecidableEq, Repr

/-- Structure `PreparedStat` of cg_stats.rs:84. -/
structure PreparedStat where
  name : String
  load : ℚ
deriving DecidableEq, Repr

/-- Structure `PreparedCgStats` of cg_stats.rs:90 (`time_span` in microseconds). -/
structure PreparedCgStats where
  time_span : Nat
  max_name_width : Nat
  users : List PreparedStat
  services : List PreparedStat
deriving DecidableEq, Repr

/-- Reinterpretation `u64 as i64` of a counter. -/
def toI64 (v : Nat) : ℤ :=
  if (v : ℤ) % 2 ^ 64 < 2 ^ 63 then (v : ℤ) % 2 ^ 64 else (v : ℤ) % 2 ^ 64 - 2 ^ 64

/-- Wrap of an `i64` arithmetic result to twos complement (release-mode Rust). -/
def wrapS64 (z : ℤ) : ℤ :=
  (z + 2 ^ 63) % 2 ^ 64 - 2 ^ 63

/-- The load formula of cg_stats.rs:197-199:
`(s2.usage_usec as i64 - s1.usage_usec as i64) as f64 / time_span.as_micros() as f64 / num_cpus as f64`. -/
def loadOf (s1 s2 : Nat) (time_span num_cpus : Nat) : ℚ :=
  ((wrapS64 (toI64 s2 - toI64 s1) : ℚ)) / (time_span : ℚ) / (num_cpus : ℚ)

/-- Rust `String` ordering (byte-wise lexicographic; UTF-8 byte order agrees
with the code-point lexicographic order on the character lists). -/
def keyLe (x y : String) : Prop := x.data ≤ y.data

instance (x y : String) : Decidable (keyLe x y) := by
  unfold keyLe; infer_instance

/-- Insert a key into a list sorted ascending (helper for `sortKeys`). -/
def insertKey (x : String) : List String → List String
  | [] => [x]
  | y :: ys => if keyLe x y then x :: y :: ys else y :: insertKey x ys

/-- Sorting `now.keys().sorted()` of cg_stats.rs:193: ascending lexical sort of the keys. -/
def sortKeys : List String → List String
  | [] => []
  | x :: xs => insertKey x (sortKeys xs)

/-- One iteration of the loop body of `get_prepared_stats`
(cg_stats.rs:194-206) for a given key of `now`. -/
def statFor (now before : CgMap) (time_span num_cpus : Nat) (threshold : ℚ)
    (key : String) : Option PreparedStat :=
  match before.lookup key, now.lookup key with
  | some s1, some s2 =>
      let load := loadOf s1 s2 time_span num_cpus
      if load ≥ threshold then some ⟨key, load⟩ else none
  | _, _ => none

/-- Function `get_prepared_stats` of cg_stats.rs:185-209: iterate the sorted keys of
`now`, keep keys also present in `before` whose load reaches the threshold. -/
def get_prepared_stats (now before : CgMap) (time_span num_cpus : Nat)
    (threshold : ℚ) : List PreparedStat :=
  (sortKeys (now.map Prod.fst)).filterMap (statFor now before time_span num_cpus threshold)

/-- Call `SystemTime::duration_since` at cg_stats.rs:58: errors iff the argument
(`before`) is strictly later than `now`; equal instants give `Ok(0)`. -/
def duration_since (now before : Nat) : Except CgError Nat :=
  if before ≤ now then .ok (now - before) else .error .nonMonotonicClock

/-- Host / filesystem effects of one invocation, injected as data:
`num_cpus` is `available_parallelism()`, `capture` is `read_cg_state()`,
`stored` is `fs::read_to_string(state_file)` + `toml::from_str`, and
`write_ok` tells whether `fs::write` of the new state succeeds. -/
structure Env where
  num_cpus : Except CgError Nat
  capture : Except CgError CgState
  stored : Except CgError CgState
  write_ok : Bool

/-- Component configuration `CgStats` (cg_stats.rs:23); the state-file path
only names which file `Env` describes, so only the threshold remains. -/
structure CgStatsCfg where
  threshold : ℚ

/-- The body of `prepare_or_error` (cg_stats.rs:46-81) after the capture
succeeded: build `PreparedCgStats` from the stored state if it is usable;
a `duration_since` failure propagates with `?`. -/
def prepareStep (cfg : CgStatsCfg) (num_cpus : Nat) (now : CgState)
    (stored : Except CgError CgState) : Except CgError PreparedCgStats :=
  match stored with
  | .error _ => .ok ⟨0, 0, [], []⟩
  | .ok before =>
    match duration_since now.time before.time with
    | .error e => .error e
    | .ok time_span =>
      let users := get_prepared_stats now.user before.user time_span num_cpus cfg.threshold
      let services := get_prepared_stats now.system before.system time_span num_cpus cfg.threshold
      let max_name_width := ((users ++ services).map (fun s => s.name.utf8ByteSize)).foldl max 0
      .ok ⟨time_span, max_name_width, users, services⟩

/-- Method `CgStats::prepare_or_error` (cg_stats.rs:46-81) as a pure function of
the environment. First component: the returned `Result` (the `Constraints`
value is dropped). Second component: whether the state file holds the new
snapshot at the end, i.e. whether `fs::write` at cg_stats.rs:73 was reached
and succeeded. -/
def prepare_or_error (cfg : CgStatsCfg) (env : Env) :
    Except CgError PreparedCgStats × Bool :=
  match env.num_cpus with
  | .error e => (.error e, false)
  | .ok num_cpus =>
    match env.capture with
    | .error e => (.error e, false)
    | .ok now =>
      match prepareStep cfg num_cpus now env.stored with
      | .error e => (.error e, false)
      | .ok prepared =>
          if env.write_ok then (.ok prepared, true)
          else (.error .writeFailed, false)

/-- Outcome of `Component::prepare` for `CgStats` (cg_stats.rs:32-39): on
any error the unprepared component itself is returned as fallback. -/
inductive PrepOutcome where
  | failed
  | prepared (r : PreparedCgStats)
deriving DecidableEq, Repr

/-- Method `CgStats::prepare` (cg_stats.rs:32-39): `prepare_or_error`, with every
error converted to the unprepared-component fallback. -/
def prepare (cfg : CgStatsCfg) (env : Env) : PrepOutcome :=
  match (prepare_or_error cfg env).1 with
  | .ok r => .prepared r
  | .error _ => .failed

/-- What `print` renders: the fixed failure line of cg_stats.rs:41 for the
unprepared component, or the prepared report (cg_stats.rs:99-128). -/
inductive RenderResult where
  | failedMessage
  | report (r : PreparedCgStats)
deriving DecidableEq, Repr

/-- Dispatch of `print` over the two `Component` impls: the unprepared
`CgStats` prints `"cg_stats component failed"`, a `PreparedCgStats` renders
its report. -/
def render : PrepOutcome → RenderResult
  | .failed => .failedMessage
  | .prepared r => .report r

/-! Label policy (cg_stats.rs:250-287). Raw names are processed as their
character lists; Rust `str::len` is the UTF-8 byte length. -/

/-- UTF-8 byte length of a character list (`str::len`). -/
def byteLen (s : List Char) : Nat :=
  (s.map Char.utf8Size).sum

/-- The three alternatives of the regex `\.service|\.scope|\.slice`
(cg_stats.rs:258), tried in order at each position. -/
def suffixPats : List (List Char) :=
  [".service".data, ".scope".data, ".slice".data]

/-- At the current position, the remainder after the first alternative that
matches, if any. -/
def matchPatAt (s : List Char) : Option (List Char) :=
  (suffixPats.find? (fun p => p.isPrefixOf s)).map (fun p => s.drop p.length)

/-- Replacement `Regex::replace` with an empty string: delete the leftmost match of
`\.service|\.scope|\.slice`, leave everything else unchanged (cg_stats.rs:260). -/
def stripFirst : List Char → List Char
  | [] => []
  | c :: cs =>
    match matchPatAt (c :: cs) with
    | some rest => rest
    | none => c :: stripFirst cs

/-- Exact byte-indexed prefix: the chars making up the first `n` bytes, or
`none` when byte index `n` falls inside a character. -/
def takeBytesExact : Nat → List Char → Option (List Char)
  | 0, _ => some []
  | _ + 1, [] => none
  | n + 1, c :: cs =>
    if c.utf8Size ≤ n + 1 then
      (takeBytesExact (n + 1 - c.utf8Size) cs).map (c :: ·)
    else none

/-- Rust `String::truncate(n)` (cg_stats.rs:266): no-op when the string is
at most `n` bytes; otherwise keep the first `n` bytes, which panics (`none`)
when byte index `n` is not a character boundary. -/
def truncateBytes (s : List Char) (n : Nat) : Option (List Char) :=
  if byteLen s ≤ n then some s else takeBytesExact n s

/-- The system-category rename closure of cg_stats.rs:259-270: strip the
first `\.service|\.scope|\.slice` match, keep the result if its byte length
is at most 23, else truncate to 20 bytes and append `"..."`. `none` models a
`String::truncate` panic. -/
def rename_system (key : List Char) : Option (List Char) :=
  let name_no_suffix := stripFirst key
  let max_len := 23
  if byteLen name_no_suffix ≤ max_len then some name_no_suffix
  else (truncateBytes name_no_suffix (max_len - 3)).map (· ++ "...".data)

/-- Function `read_stats` (cg_stats.rs:232-248) over an abstract directory listing
`entries` (child-directory name, `usage_usec` read from its `cpu.stat`):
every key is passed through `rename_key` before insertion. -/
def read_stats (rename_key : String → String) (entries : List (String × Nat)) : CgMap :=
  entries.map (fun e => (rename_key e.1, e.2))

/-- The system-category rename on `String` values (wrapper of
`rename_system` over the character list). -/
def rename_system_str (key : String) : Option String :=
  (rename_system key.data).map (fun l => ⟨l⟩)

/-- Variant of `read_stats` with a fallible (panicking) rename closure: the snapshot
map is built only if every key renames without panicking; the renamed name
is the stored key, exactly as at cg_stats.rs:244. -/
def capture_stats (rename_key : String → Option String)
    (entries : List (String × Nat)) : Option CgMap :=
  entries.mapM (fun e => (rename_key e.1).map (fun d => (d, e.2)))

/-! Helper lemmas shared by the claim theorems. -/

theorem keyLe_total (x y : String) : keyLe x y ∨ keyLe y x :=
  le_total x.data y.data

theorem keyLe_trans {x y z : String} (h1 : keyLe x y) (h2 : keyLe y z) : keyLe x z :=
  le_trans h1 h2

theorem mem_insertKey {x y : String} {l : List String} :
    y ∈ insertKey x l ↔ y = x ∨ y ∈ l := by
  induction l with
  | nil => simp [insertKey]
  | cons a l ih =>
      by_cases h : keyLe x a
      · simp [insertKey, h]
      · simp [insertKey, h, ih]
        tauto

theorem mem_sortKeys {x : String} {l : List String} :
    x ∈ sortKeys l ↔ x ∈ l := by
  induction l with
  | nil => simp [sortKeys]
  | cons a l ih => simp [sortKeys, mem_insertKey, ih]

theorem pairwise_insertKey {x : String} {l : List String}
    (h : l.Pairwise keyLe) : (insertKey x l).Pairwise keyLe := by
  induction l with
  | nil => simp [insertKey]
  | cons a l ih =>
      rcases List.pairwise_cons.mp h with ⟨ha, hl⟩
      by_cases hxa : keyLe x a
      · rw [insertKey, if_pos hxa]
        refine List.pairwise_cons.mpr ⟨?_, h⟩
        intro b hb
        rw [List.mem_cons] at hb
        rcases hb with rfl | hb
        · exact hxa
        · exact keyLe_trans hxa (ha _ hb)
      · rw [insertKey, if_neg hxa]
        refine List.pairwise_cons.mpr ⟨?_, ih hl⟩
        intro b hb
        rcases mem_insertKey.mp hb with rfl | hb
        · exact (keyLe_total b a).resolve_left hxa
        · exact ha _ hb

theorem pairwise_sortKeys (l : List String) : (sortKeys l).Pairwise keyLe := by
  induction l with
  | nil => simp [sortKeys]
  | cons a l ih => exact pairwise_insertKey ih

theorem statFor_name {now before : CgMap} {t c : Nat} {th : ℚ} {key : String}
    {e : PreparedStat} (h : statFor now before t c th key = some e) :
    e.name = key := by
  unfold statFor at h
  rcases h1 : before.lookup key with _ | s1 <;> rw [h1] at h <;>
    rcases h2 : now.lookup key with _ | s2 <;> rw [h2] at h <;> simp at h
  obtain ⟨-, rfl⟩ := h
  rfl

theorem filterMap_name_sublist {α : Type} (f : String → Option α) (g : α → String)
    (hf : ∀ a b, f a = some b → g b = a) :
    ∀ l : List String, ((l.filterMap f).map g).Sublist l := by
  intro l
  induction l with
  | nil => simp
  | cons a l ih =>
      rcases h : f a with _ | b
      · simp only [List.filterMap_cons, h]
        exact ih.trans (List.sublist_cons_self a l)
      · simp only [List.filterMap_cons, h, List.map_cons]
        rw [hf a b h]
        exact ih.cons₂ a

theorem statFor_eq_some {now before : CgMap} {t c : Nat} {th : ℚ} {key : String}
    {e : PreparedStat} (h : statFor now before t c th key = some e) :
    ∃ s1 s2, before.lookup key = some s1 ∧ now.lookup key = some s2 ∧
      th ≤ loadOf s1 s2 t c ∧ e = ⟨key, loadOf s1 s2 t c⟩ := by
  unfold statFor at h
  rcases h1 : before.lookup key with _ | s1 <;> rw [h1] at h <;>
    rcases h2 : now.lookup key with _ | s2 <;> rw [h2] at h <;> simp at h
  exact ⟨s1, s2, rfl, rfl, h.1, h.2.symm⟩

theorem statFor_some_of {now before : CgMap} {t c : Nat} {th : ℚ} {key : String}
    {s1 s2 : Nat} (h1 : before.lookup key = some s1) (h2 : now.lookup key = some s2)
    (hth : th ≤ loadOf s1 s2 t c) :
    statFor now before t c th key = some ⟨key, loadOf s1 s2 t c⟩ := by
  unfold statFor
  rw [h1, h2]
  simp [hth]

theorem statFor_none_of_lt {now before : CgMap} {t c : Nat} {th : ℚ} {key : String}
    {s1 s2 : Nat} (h1 : before.lookup key = some s1) (h2 : now.lookup key = some s2)
    (hlt : loadOf s1 s2 t c < th) :
    statFor now before t c th key = none := by
  unfold statFor
  rw [h1, h2]
  simp [not_le.mpr hlt]

theorem mem_gps {now before : CgMap} {t c : Nat} {th : ℚ} {e : PreparedStat} :
    e ∈ get_prepared_stats now before t c th ↔
      ∃ key ∈ now.map Prod.fst, statFor now before t c th key = some e := by
  unfold get_prepared_stats
  rw [List.mem_filterMap]
  constructor
  · rintro ⟨key, hk, he⟩
    exact ⟨key, mem_sortKeys.mp hk, he⟩
  · rintro ⟨key, hk, he⟩
    exact ⟨key, mem_sortKeys.mpr hk, he⟩

theorem lookup_mem_keys {m : CgMap} {k : String} {v : Nat}
    (h : m.lookup k = some v) : k ∈ m.map Prod.fst := by
  induction m with
  | nil => simp [List.lookup] at h
  | cons p m ih =>
      obtain ⟨a, b⟩ := p
      by_cases hk : k = a
      · subst hk; simp
      · have hne : (k == a) = false := by simpa using hk
        simp only [List.lookup_cons, hne] at h
        simp [ih h]

theorem gps_nil_before (now : CgMap) (t c : Nat) (th : ℚ) :
    get_prepared_stats now [] t c th = [] := by
  unfold get_prepared_stats
  rw [List.filterMap_eq_nil_iff]
  intro key _
  simp [statFor, List.lookup]

theorem gps_single_a (key : String) (s1 s2 : Nat) (t c : Nat) (th : ℚ)
    (h : th ≤ loadOf s1 s2 t c) :
    get_prepared_stats [(key, s2)] [(key, s1)] t c th
      = [⟨key, loadOf s1 s2 t c⟩] := by
  unfold get_prepared_stats
  have hs : sortKeys (List.map Prod.fst [(key, s2)]) = [key] := rfl
  rw [hs, List.filterMap_cons, statFor_some_of (by simp) (by simp) h]
  rfl

/-- C3 (counterexample): two snapshots with exactly equal timestamps do not
make the preparation step fail — `SystemTime::duration_since` returns
`Ok(0)` for equal instants, so `prepare_or_error` succeeds (with an empty
report here), contradicting the claim that equal timestamps fail with the
non-monotonic-clock error. -/
theorem c3_counterexample :
    (prepare_or_error ⟨0⟩ ⟨.ok 1, .ok ⟨5, [], []⟩, .ok ⟨5, [], []⟩, true⟩).1
      = .ok ⟨0, 0, [], []⟩ := rfl

/-- C3 (amended): the delta/preparation step fails with the
non-monotonic-clock error exactly when the elapsed time is strictly
negative, i.e. `now.captured_at` is strictly earlier than
`before.captured_at`; equal timestamps give a zero elapsed time and do not
fail. -/
theorem c3_amended :
    (∀ t1 t2 : Nat,
      duration_since t1 t2 = .error .nonMonotonicClock ↔ t1 < t2) ∧
    (∀ (cfg : CgStatsCfg) (env : Env) (n : Nat) (now before : CgState),
      env.num_cpus = .ok n → env.capture = .ok now → env.stored = .ok before →
      now.time < before.time →
      (prepare_or_error cfg env).1 = .error .nonMonotonicClock) := by
  constructor
  · intro t1 t2
    unfold duration_since
    by_cases h : t2 ≤ t1
    · simp only [if_pos h]
      constructor
      · intro hc; cases hc
      · omega
    · simp only [if_neg h]
      constructor
      · intro _; omega
      · intro _; trivial
  · intro cfg env n now before hn hc hs hlt
    simp only [prepare_or_error, hn, hc, prepareStep, hs, duration_since,
      if_neg (by omega : ¬ before.time ≤ now.time)]

/-- C3 (witness for the amended theorem at concrete inputs). -/
theorem c3_witness :
    duration_since 3 7 = .error .nonMonotonicClock ∧
    (prepare_or_error ⟨0⟩ ⟨.ok 1, .ok ⟨3, [], []⟩, .ok ⟨7, [], []⟩, true⟩).1
      = .error .nonMonotonicClock :=
  ⟨(c3_amended.1 3 7).mpr (by decide),
   c3_amended.2 ⟨0⟩ ⟨.ok 1, .ok ⟨3, [], []⟩, .ok ⟨7, [], []⟩, true⟩ 1
     ⟨3, [], []⟩ ⟨7, [], []⟩ rfl rfl rfl (by decide)⟩

theorem load_scenario_a : loadOf 1000000 5000000 4000000 1 = 1 := by
  norm_num [loadOf, toI64, wrapS64]

theorem gps_scenario_a :
    get_prepared_stats [("a", 5000000)] [("a", 1000000)] 4000000 1 0
      = [⟨"a", 1⟩] := by
  rw [gps_single_a "a" 1000000 5000000 4000000 1 0 (by rw [load_scenario_a]; norm_num),
    load_scenario_a]

theorem prepareStep_scenario_a :
    prepareStep ⟨0⟩ 1 ⟨4000001, [("a", 5000000)], []⟩ (.ok ⟨1, [("a", 1000000)], []⟩)
      = .ok ⟨4000000, 1, [⟨"a", 1⟩], []⟩ := by
  have h1 : prepareStep ⟨0⟩ 1 ⟨4000001, [("a", 5000000)], []⟩
        (.ok ⟨1, [("a", 1000000)], []⟩)
      = Except.ok ⟨4000000,
          ((get_prepared_stats [("a", 5000000)] [("a", 1000000)] 4000000 1 0
              ++ get_prepared_stats [] [] 4000000 1 0).map
            (fun s => s.name.utf8ByteSize)).foldl max 0,
          get_prepared_stats [("a", 5000000)] [("a", 1000000)] 4000000 1 0,
          get_prepared_stats [] [] 4000000 1 0⟩ := rfl
  rw [h1, gps_scenario_a, gps_nil_before]
  rfl

/-- C2 (counterexample): with a successful capture and a usable prior state
(so a real report with entry `("a", 100%)` is prepared — second conjunct,
same inputs with a succeeding write), a failing `fs::write` makes
`prepare_or_error` return `Err` via `?` (cg_stats.rs:73), so `prepare`
falls back to the unprepared component and the fixed
"cg_stats component failed" message is rendered instead of the prepared
report — contradicting the claim. -/
theorem c2_counterexample :
    render (prepare ⟨0⟩ ⟨.ok 1, .ok ⟨4000001, [("a", 5000000)], []⟩,
        .ok ⟨1, [("a", 1000000)], []⟩, false⟩) = .failedMessage ∧
    (prepare_or_error ⟨0⟩ ⟨.ok 1, .ok ⟨4000001, [("a", 5000000)], []⟩,
        .ok ⟨1, [("a", 1000000)], []⟩, true⟩).1
      = .ok ⟨4000000, 1, [⟨"a", 1⟩], []⟩ := by
  constructor
  · rfl
  · rw [show (prepare_or_error ⟨0⟩ ⟨.ok 1, .ok ⟨4000001, [("a", 5000000)], []⟩,
          .ok ⟨1, [("a", 1000000)], []⟩, true⟩).1
        = prepareStep ⟨0⟩ 1 ⟨4000001, [("a", 5000000)], []⟩
            (.ok ⟨1, [("a", 1000000)], []⟩) from rfl]
    exact prepareStep_scenario_a

/-- C2 (amended): a failure to save the state file does alter the outcome —
whenever `fs::write` fails, the `?` at cg_stats.rs:73 propagates the error,
`prepare` returns the unprepared component, and the component renders the
fixed "component failed" message (the prepared report is discarded). -/
theorem c2_amended (cfg : CgStatsCfg) (env : Env) (hw : env.write_ok = false) :
    render (prepare cfg env) = .failedMessage := by
  rcases hn : env.num_cpus with e | n
  · simp only [render, prepare, prepare_or_error, hn]
  · rcases hc : env.capture with e | now
    · simp only [render, prepare, prepare_or_error, hn, hc]
    · rcases hs : prepareStep cfg n now env.stored with e | p
      · simp only [render, prepare, prepare_or_error, hn, hc, hs]
      · simp only [render, prepare, prepare_or_error, hn, hc, hs, hw,
          Bool.false_eq_true, if_false]

/-- C2 (witness for the amended theorem at a concrete input). -/
theorem c2_witness :
    render (prepare ⟨0⟩ ⟨.ok 1, .ok ⟨5, [], []⟩, .error .other, false⟩)
      = .failedMessage :=
  c2_amended ⟨0⟩ ⟨.ok 1, .ok ⟨5, [], []⟩, .error .other, false⟩ rfl

/-- C1 (counterexample): the snapshot capture succeeds (`capture` is `ok`)
and the write itself would succeed (`write_ok = true`), but because the
stored snapshot carries a later timestamp (10 > 5) the `?` on
`duration_since` at cg_stats.rs:58 propagates the non-monotonic-clock error
before `fs::write` at cg_stats.rs:73 is reached: the new snapshot is NOT
written, contradicting the claim. -/
theorem c1_counterexample :
    (prepare_or_error ⟨0⟩ ⟨.ok 1, .ok ⟨5, [], []⟩, .ok ⟨10, [], []⟩, true⟩).2
      = false := rfl

/-- C1 (amended): after a successful capture (and available CPU count), the
new snapshot is persisted iff the delta step did not fail — i.e. the prior
state was absent/unusable, or its timestamp is not later than the new one —
and the write itself succeeds. In particular a non-monotonic-clock failure
prevents persistence. -/
theorem c1_amended (cfg : CgStatsCfg) (env : Env) (n : Nat) (now : CgState)
    (hn : env.num_cpus = .ok n) (hc : env.capture = .ok now) :
    (prepare_or_error cfg env).2 = true ↔
      ((∀ b, env.stored = .ok b → b.time ≤ now.time) ∧ env.write_ok = true) := by
  rcases hs : env.stored with e | b
  · simp only [prepare_or_error, hn, hc, prepareStep, hs]
    rcases hw : env.write_ok <;> simp
  · by_cases hbt : b.time ≤ now.time
    · simp only [prepare_or_error, hn, hc, prepareStep, hs, duration_since,
        if_pos hbt]
      rcases hw : env.write_ok <;> simp [hbt]
    · simp only [prepare_or_error, hn, hc, prepareStep, hs, duration_since,
        if_neg hbt]
      simp [hbt]

/-- C1 (witness for the amended theorem at a concrete input: usable prior
state with an older timestamp, successful write — snapshot persisted). -/
theorem c1_witness :
    (prepare_or_error ⟨0⟩ ⟨.ok 1, .ok ⟨9, [], []⟩, .ok ⟨4, [], []⟩, true⟩).2
      = true :=
  (c1_amended ⟨0⟩ ⟨.ok 1, .ok ⟨9, [], []⟩, .ok ⟨4, [], []⟩, true⟩ 1 ⟨9, [], []⟩
    rfl rfl).mpr ⟨by intro b hb; cases hb; decide, rfl⟩

/-- C7: an entity key present only in `now` or only in `before` never
appears in the result of `get_prepared_stats` — the name of every entry
is a key of both maps — and with an empty `before` map the result is empty. -/
theorem c7_exclusion :
    (∀ (now before : CgMap) (t c : Nat) (th : ℚ) (e : PreparedStat),
      e ∈ get_prepared_stats now before t c th →
        e.name ∈ now.map Prod.fst ∧ e.name ∈ before.map Prod.fst) ∧
    (∀ (now : CgMap) (t c : Nat) (th : ℚ),
      get_prepared_stats now [] t c th = []) := by
  constructor
  · intro now before t c th e he
    rcases mem_gps.mp he with ⟨key, hk, hsf⟩
    rcases statFor_eq_some hsf with ⟨s1, _, hl1, _, _, he1⟩
    rw [he1]
    exact ⟨hk, lookup_mem_keys hl1⟩
  · intro now t c th
    exact gps_nil_before now t c th

/-- C7 (witness): concrete inputs discharging both hypotheses — an entry in
the result of a run where "a" is in both snapshots, and Scenario C with an
empty `before`. -/
theorem c7_witness :
    (⟨"a", 1⟩ : PreparedStat) ∈ get_prepared_stats [("a", 5000000)]
        [("a", 1000000)] 4000000 1 0 ∧
    ("a" ∈ [("a", 5000000)].map (Prod.fst (β := Nat)) ∧
      "a" ∈ [("a", 1000000)].map (Prod.fst (β := Nat))) ∧
    get_prepared_stats [("a", 5000000)] [] 4000000 1 0 = [] :=
  ⟨by rw [gps_scenario_a]; exact List.mem_singleton.mpr rfl,
   c7_exclusion.1 [("a", 5000000)] [("a", 1000000)] 4000000 1 0 ⟨"a", 1⟩
     (by rw [gps_scenario_a]; exact List.mem_singleton.mpr rfl),
   c7_exclusion.2 [("a", 5000000)] 4000000 1 0⟩

/-- C9: for any inputs, the names in the result of `get_prepared_stats` are
in ascending lexical order (the loop iterates `now.keys().sorted()`);
recomputing on the same inputs gives the same list; and a concrete run
shows ordering is by name, not by load (loads 2 and 1/4 appear in
name-ascending, load-descending order). -/
theorem c9_sorted_deterministic :
    (∀ (now before : CgMap) (t c : Nat) (th : ℚ),
      ((get_prepared_stats now before t c th).map PreparedStat.name).Pairwise keyLe) ∧
    (∀ (now before : CgMap) (t c : Nat) (th : ℚ),
      get_prepared_stats now before t c th = get_prepared_stats now before t c th) ∧
    get_prepared_stats [("b", 2000000), ("a", 9000000)]
        [("a", 1000000), ("b", 1000000)] 4000000 1 0
      = [⟨"a", 2⟩, ⟨"b", 1/4⟩] := by
  refine ⟨?_, fun _ _ _ _ _ => rfl, ?_⟩
  · intro now before t c th
    exact List.Pairwise.sublist
      (filterMap_name_sublist _ PreparedStat.name
        (fun a b hb => statFor_name hb) _)
      (pairwise_sortKeys _)
  · have ha : loadOf 1000000 9000000 4000000 1 = 2 := by
      norm_num [loadOf, toI64, wrapS64]
    have hb : loadOf 1000000 2000000 4000000 1 = 1/4 := by
      norm_num [loadOf, toI64, wrapS64]
    have la1 : List.lookup "a" [("a", 1000000), ("b", 1000000)]
        = some 1000000 := by decide
    have la2 : List.lookup "a" [("b", 2000000), ("a", 9000000)]
        = some 9000000 := by decide
    have lb1 : List.lookup "b" [("a", 1000000), ("b", 1000000)]
        = some 1000000 := by decide
    have lb2 : List.lookup "b" [("b", 2000000), ("a", 9000000)]
        = some 2000000 := by decide
    have key_a : statFor [("b", 2000000), ("a", 9000000)]
        [("a", 1000000), ("b", 1000000)] 4000000 1 0 "a" = some ⟨"a", 2⟩ := by
      rw [statFor_some_of la1 la2 (by rw [ha]; norm_num), ha]
    have key_b : statFor [("b", 2000000), ("a", 9000000)]
        [("a", 1000000), ("b", 1000000)] 4000000 1 0 "b" = some ⟨"b", 1/4⟩ := by
      rw [statFor_some_of lb1 lb2 (by rw [hb]; norm_num), hb]
    unfold get_prepared_stats
    rw [show sortKeys (List.map Prod.fst [("b", 2000000), ("a", 9000000)])
        = ["a", "b"] from by decide]
    rw [List.filterMap_cons, key_a, List.filterMap_cons, key_b,
      List.filterMap_nil]

theorem toI64_small {v : Nat} (hv : v < 2 ^ 63) : toI64 v = (v : ℤ) := by
  unfold toI64
  have hv64 : (v : ℤ) < 2 ^ 64 := by
    exact_mod_cast Nat.lt_trans hv (by norm_num)
  have m : (v : ℤ) % 2 ^ 64 = (v : ℤ) := Int.emod_eq_of_lt (by positivity) hv64
  rw [m, if_pos (by exact_mod_cast hv)]

theorem wrapS64_small {z : ℤ} (h1 : -(2 ^ 63) ≤ z) (h2 : z < 2 ^ 63) :
    wrapS64 z = z := by
  unfold wrapS64
  rw [Int.emod_eq_of_lt (by omega) (by omega)]
  ring

/-- C5: for a key present in both snapshots, every result entry named by
that key carries exactly the load
`(now.counter as i64 - before.counter as i64) / elapsed / cpu_count`
(first conjunct); within the `i64` range, a counter smaller in `now` than
in `before` makes that signed value strictly negative (second conjunct);
Scenario A — counters 1,000,000 then 5,000,000 over 4 s with 1 CPU — gives
load 1, and Scenario B — same with 4 CPUs — gives load 1/4 (last two
conjuncts). -/
theorem c5_load_formula :
    (∀ (now before : CgMap) (t c : Nat) (th : ℚ) (key : String) (s1 s2 : Nat)
      (e : PreparedStat), before.lookup key = some s1 → now.lookup key = some s2 →
      e ∈ get_prepared_stats now before t c th → e.name = key →
      e.load = loadOf s1 s2 t c) ∧
    (∀ s1 s2 t c : Nat, s1 < 2 ^ 63 → s2 < 2 ^ 63 → s2 < s1 → 0 < t → 0 < c →
      loadOf s1 s2 t c < 0) ∧
    get_prepared_stats [("a", 5000000)] [("a", 1000000)] 4000000 1 0
      = [⟨"a", 1⟩] ∧
    get_prepared_stats [("a", 5000000)] [("a", 1000000)] 4000000 4 0
      = [⟨"a", 1/4⟩] := by
  refine ⟨?_, ?_, gps_scenario_a, ?_⟩
  · intro now before t c th key s1 s2 e h1 h2 he hname
    rcases mem_gps.mp he with ⟨k, _, hsf⟩
    have hk : k = key := by rw [← statFor_name hsf, hname]
    subst hk
    rcases statFor_eq_some hsf with ⟨u1, u2, hu1, hu2, _, he1⟩
    rw [h1] at hu1
    rw [h2] at hu2
    cases Option.some.inj hu1
    cases Option.some.inj hu2
    rw [he1]
  · intro s1 s2 t c hs1 hs2 hlt ht hc
    unfold loadOf
    rw [toI64_small hs1, toI64_small hs2,
      wrapS64_small (by omega) (by omega)]
    have hneg : (((s2 : ℤ) - (s1 : ℤ) : ℤ) : ℚ) < 0 := by
      have hz : (s2 : ℤ) - (s1 : ℤ) < 0 := by
        have : (s2 : ℤ) < (s1 : ℤ) := by exact_mod_cast hlt
        omega
      exact_mod_cast hz
    exact div_neg_of_neg_of_pos
      (div_neg_of_neg_of_pos hneg (by exact_mod_cast ht))
      (by exact_mod_cast hc)
  · have hb : loadOf 1000000 5000000 4000000 4 = 1 / 4 := by
      norm_num [loadOf, toI64, wrapS64]
    rw [gps_single_a "a" 1000000 5000000 4000000 4 0 (by rw [hb]; norm_num), hb]

/-- C5 (witness): the first conjunct applied to Scenario A, and the signed
negativity at concrete counters 2 then 1. -/
theorem c5_witness :
    ((⟨"a", 1⟩ : PreparedStat).load = loadOf 1000000 5000000 4000000 1) ∧
    loadOf 2 1 1 1 < 0 :=
  ⟨c5_load_formula.1 [("a", 5000000)] [("a", 1000000)] 4000000 1 0 "a"
      1000000 5000000 ⟨"a", 1⟩ (by decide) (by decide)
      (by rw [gps_scenario_a]; exact List.mem_singleton.mpr rfl) rfl,
   c5_load_formula.2.1 2 1 1 1 (by norm_num) (by norm_num) (by norm_num)
      (by norm_num) (by norm_num)⟩

/-- C6: an entity whose load equals the threshold exactly is included in the
result (the test at cg_stats.rs:200 is `load >= threshold`); an entity with
load strictly below the threshold contributes no entry at all; and included
loads are the raw computed values, not clamped — concretely a load of 2
(200%) appears as 2. -/
theorem c6_threshold :
    (∀ (now before : CgMap) (t c : Nat) (th : ℚ) (key : String) (s1 s2 : Nat),
      before.lookup key = some s1 → now.lookup key = some s2 →
      loadOf s1 s2 t c = th →
      (⟨key, th⟩ : PreparedStat) ∈ get_prepared_stats now before t c th) ∧
    (∀ (now before : CgMap) (t c : Nat) (th : ℚ) (key : String) (s1 s2 : Nat),
      before.lookup key = some s1 → now.lookup key = some s2 →
      loadOf s1 s2 t c < th →
      ∀ e ∈ get_prepared_stats now before t c th, e.name ≠ key) ∧
    get_prepared_stats [("a", 9000000)] [("a", 1000000)] 4000000 1 0
      = [⟨"a", 2⟩] := by
  refine ⟨?_, ?_, ?_⟩
  · intro now before t c th key s1 s2 h1 h2 heq
    have hsf := statFor_some_of h1 h2 (le_of_eq heq.symm)
    rw [heq] at hsf
    exact mem_gps.mpr ⟨key, lookup_mem_keys h2, hsf⟩
  · intro now before t c th key s1 s2 h1 h2 hlt e he hname
    rcases mem_gps.mp he with ⟨k, _, hsf⟩
    have hk : k = key := by rw [← statFor_name hsf, hname]
    subst hk
    rw [statFor_none_of_lt h1 h2 hlt] at hsf
    cases hsf
  · have h2 : loadOf 1000000 9000000 4000000 1 = 2 := by
      norm_num [loadOf, toI64, wrapS64]
    rw [gps_single_a "a" 1000000 9000000 4000000 1 0 (by rw [h2]; norm_num), h2]

/-- C6 (witness): boundary inclusion at threshold exactly 1 (= the Scenario-A
load), and exclusion for threshold 2 with the same load 1. -/
theorem c6_witness :
    (⟨"a", 1⟩ : PreparedStat) ∈ get_prepared_stats [("a", 5000000)]
        [("a", 1000000)] 4000000 1 1 ∧
    (∀ e ∈ get_prepared_stats [("a", 5000000)] [("a", 1000000)] 4000000 1 2,
      e.name ≠ "a") :=
  ⟨c6_threshold.1 [("a", 5000000)] [("a", 1000000)] 4000000 1 1 "a"
      1000000 5000000 (by decide) (by decide)
      (by norm_num [loadOf, toI64, wrapS64]),
   c6_threshold.2.1 [("a", 5000000)] [("a", 1000000)] 4000000 1 2 "a"
      1000000 5000000 (by decide) (by decide)
      (by norm_num [loadOf, toI64, wrapS64])⟩

/-- C4 (counterexample): renaming happens at capture time, not after delta
computation. Capturing raw directory name "foo.scope" for `now` and
"foo.service" for `before` stores both under the renamed key "foo"
(cg_stats.rs:244 inserts `rename_key(name)`), and the delta computation then
matches these two distinct raw keys with each other, producing an entry —
impossible if matching were done on raw keys as the claim states. -/
theorem c4_counterexample :
    capture_stats rename_system_str [("foo.scope", 5000000)]
      = some [("foo", 5000000)] ∧
    capture_stats rename_system_str [("foo.service", 1000000)]
      = some [("foo", 1000000)] ∧
    get_prepared_stats [("foo", 5000000)] [("foo", 1000000)] 4000000 1 0
      = [⟨"foo", 1⟩] ∧
    "foo.scope" ≠ "foo.service" := by
  refine ⟨by decide, by decide, ?_, by decide⟩
  have hl : loadOf 1000000 5000000 4000000 1 = 1 := by
    norm_num [loadOf, toI64, wrapS64]
  rw [gps_single_a "foo" 1000000 5000000 4000000 1 0 (by rw [hl]; norm_num), hl]

/-- C4 (amended): the rename/label function is applied to every entity key
at capture time inside `read_stats`, so the snapshot maps — and hence the
keys on which `now` and `before` are matched — already hold renamed
(display) names; the name of every result entry is the renamed form of some raw
entry of the directory listing of each snapshot. -/
theorem c4_amended :
    (∀ (r : String → String) (entries : List (String × Nat)),
      (read_stats r entries).map Prod.fst = entries.map (fun e => r e.1)) ∧
    (∀ (r : String → String) (nowE beforeE : List (String × Nat))
      (t c : Nat) (th : ℚ) (e : PreparedStat),
      e ∈ get_prepared_stats (read_stats r nowE) (read_stats r beforeE) t c th →
      (∃ p ∈ nowE, r p.1 = e.name) ∧ (∃ p ∈ beforeE, r p.1 = e.name)) := by
  constructor
  · intro r entries
    simp [read_stats]
  · intro r nowE beforeE t c th e he
    have hmem := c7_exclusion.1 (read_stats r nowE) (read_stats r beforeE)
      t c th e he
    constructor
    · rcases List.mem_map.mp (by
        have := hmem.1
        rwa [show (read_stats r nowE).map Prod.fst
            = nowE.map (fun p => r p.1) from by simp [read_stats]] at this)
        with ⟨p, hp, hpe⟩
      exact ⟨p, hp, hpe⟩
    · rcases List.mem_map.mp (by
        have := hmem.2
        rwa [show (read_stats r beforeE).map Prod.fst
            = beforeE.map (fun p => r p.1) from by simp [read_stats]] at this)
        with ⟨p, hp, hpe⟩
      exact ⟨p, hp, hpe⟩

/-- C4 (witness for the amended theorem): the raw listings of the
counterexample, renamed with the system label policy (total on these
names), produce the matched entry ⟨"foo", 1⟩ whose name is the renamed form
of both raw keys. -/
theorem c4_witness :
    (∃ p ∈ [("foo.scope", 5000000)],
      ((rename_system_str p.1).getD p.1) = ("foo" : String)) ∧
    (∃ p ∈ [("foo.service", 1000000)],
      ((rename_system_str p.1).getD p.1) = ("foo" : String)) := by
  have hl : loadOf 1000000 5000000 4000000 1 = 1 := by
    norm_num [loadOf, toI64, wrapS64]
  have hmem : (⟨"foo", 1⟩ : PreparedStat) ∈ get_prepared_stats
      (read_stats (fun k => (rename_system_str k).getD k) [("foo.scope", 5000000)])
      (read_stats (fun k => (rename_system_str k).getD k) [("foo.service", 1000000)])
      4000000 1 0 := by
    rw [show read_stats (fun k => (rename_system_str k).getD k)
        [("foo.scope", 5000000)] = [("foo", 5000000)] from by decide]
    rw [show read_stats (fun k => (rename_system_str k).getD k)
        [("foo.service", 1000000)] = [("foo", 1000000)] from by decide]
    rw [gps_single_a "foo" 1000000 5000000 4000000 1 0 (by rw [hl]; norm_num), hl]
    exact List.mem_singleton.mpr rfl
  have h := c4_amended.2 (fun k => (rename_system_str k).getD k)
    [("foo.scope", 5000000)] [("foo.service", 1000000)] 4000000 1 0 ⟨"foo", 1⟩ hmem
  exact h

theorem byteLen_nil : byteLen [] = 0 := rfl

theorem byteLen_cons (c : Char) (cs : List Char) :
    byteLen (c :: cs) = c.utf8Size + byteLen cs := by
  simp [byteLen]

theorem byteLen_append (a b : List Char) :
    byteLen (a ++ b) = byteLen a + byteLen b := by
  simp [byteLen]

theorem byteLen_takeBytesExact :
    ∀ (s : List Char) (n : Nat) (t : List Char),
      takeBytesExact n s = some t → byteLen t ≤ n := by
  intro s
  induction s with
  | nil =>
      intro n t h
      cases n with
      | zero =>
          cases Option.some.inj h
          simp [byteLen]
      | succ n => cases h
  | cons c cs ih =>
      intro n t h
      cases n with
      | zero =>
          cases Option.some.inj h
          simp [byteLen]
      | succ n =>
          unfold takeBytesExact at h
          by_cases hsz : c.utf8Size ≤ n + 1
          · rw [if_pos hsz] at h
            rcases Option.map_eq_some'.mp h with ⟨u, hu, hut⟩
            have hb := ih (n + 1 - c.utf8Size) u hu
            rw [← hut, byteLen_cons]
            omega
          · rw [if_neg hsz] at h
            cases h

theorem stripFirst_subset : ∀ {s : List Char} {a : Char},
    a ∈ stripFirst s → a ∈ s := by
  intro s
  induction s with
  | nil => intro a h; simp [stripFirst] at h
  | cons c cs ih =>
      intro a h
      unfold stripFirst at h
      rcases hm : matchPatAt (c :: cs) with _ | rest
      · rw [hm] at h
        rcases List.mem_cons.mp h with rfl | h
        · exact List.mem_cons_self a cs
        · exact List.mem_cons_of_mem c (ih h)
      · rw [hm] at h
        unfold matchPatAt at hm
        rcases Option.map_eq_some'.mp hm with ⟨p, _, hrest⟩
        rw [← hrest] at h
        exact List.drop_subset _ _ h

theorem byteLen_ascii (s : List Char) (h : ∀ ch ∈ s, ch.utf8Size = 1) :
    byteLen s = s.length := by
  induction s with
  | nil => rfl
  | cons c cs ih =>
      rw [byteLen_cons, h c (List.mem_cons_self c cs),
        ih (fun ch hch => h ch (List.mem_cons_of_mem c hch))]
      simp [Nat.add_comm]

theorem takeBytesExact_ascii :
    ∀ (s : List Char), (∀ ch ∈ s, ch.utf8Size = 1) →
      ∀ n, n ≤ s.length → (takeBytesExact n s).isSome = true := by
  intro s
  induction s with
  | nil =>
      intro _ n hn
      cases n with
      | zero => rfl
      | succ n => simp at hn
  | cons c cs ih =>
      intro h n hn
      cases n with
      | zero => rfl
      | succ n =>
          have hc : c.utf8Size = 1 := h c (List.mem_cons_self c cs)
          unfold takeBytesExact
          rw [if_pos (by omega), hc, Nat.add_sub_cancel]
          have hcs := ih (fun ch hch => h ch (List.mem_cons_of_mem c hch)) n
            (by simpa using Nat.lt_succ_iff.mp (Nat.lt_of_lt_of_le (Nat.lt_succ_self n) (by simpa using hn)))
          rcases Option.isSome_iff_exists.mp hcs with ⟨t, ht⟩
          rw [ht]
          rfl

/-- C8: whenever the system-category rename returns a display name, its
UTF-8 byte length is at most the fixed maximum 23, and if the truncation
branch was taken (stripped name longer than 23 bytes) the display name ends
with the ellipsis "..." — plus Scenario D: the 64-hex-char docker scope
name becomes its first 20 characters followed by "...". -/
theorem c8_truncation :
    (∀ (key d : List Char), rename_system key = some d →
      byteLen d ≤ 23 ∧ (23 < byteLen (stripFirst key) → "...".data <:+ d)) ∧
    rename_system_str
        "docker-dcd9a8c71b756de71a4a837c005840f84e0ed92574704ae1c89409c57980aaee.scope"
      = some "docker-dcd9a8c71b756..." := by
  refine ⟨?_, by decide⟩
  intro key d h
  unfold rename_system at h
  by_cases hle : byteLen (stripFirst key) ≤ 23
  · rw [if_pos hle] at h
    cases Option.some.inj h
    exact ⟨hle, fun hgt => absurd hgt (by omega)⟩
  · rw [if_neg hle] at h
    rcases Option.map_eq_some'.mp h with ⟨t, ht, htd⟩
    unfold truncateBytes at ht
    rw [if_neg (by omega)] at ht
    have hbt := byteLen_takeBytesExact _ _ _ ht
    constructor
    · rw [← htd, byteLen_append]
      have : byteLen "...".data = 3 := rfl
      omega
    · intro _
      exact ⟨t, htd⟩

/-- C8 (witness): the general bound applied to the concrete Scenario-D name. -/
theorem c8_witness :
    byteLen "docker-dcd9a8c71b756...".data ≤ 23 ∧
    "...".data <:+ "docker-dcd9a8c71b756...".data := by
  have h := c8_truncation.1
    "docker-dcd9a8c71b756de71a4a837c005840f84e0ed92574704ae1c89409c57980aaee.scope".data
    "docker-dcd9a8c71b756...".data (by decide)
  exact ⟨h.1, h.2 (by decide)⟩

/-- C10: the rename closure is not total over Unicode names —
"aaaaaaaaaaaaaaaaaaaéxxxx" (19 ASCII chars, then a 2-byte char spanning
byte index 20, stripped form 25 > 23 bytes) makes `String::truncate(20)`
panic (modelled as `none`), while for every all-ASCII name the rename is
well-defined (byte index 20 is then always a character boundary). -/
theorem c10_truncation_panic :
    rename_system "aaaaaaaaaaaaaaaaaaaéxxxx".data = none ∧
    23 < byteLen (stripFirst "aaaaaaaaaaaaaaaaaaaéxxxx".data) ∧
    (∀ key : List Char, (∀ ch ∈ key, ch.utf8Size = 1) →
      (rename_system key).isSome = true) := by
  refine ⟨by decide, by decide, ?_⟩
  intro key hascii
  have hsub : ∀ ch ∈ stripFirst key, ch.utf8Size = 1 :=
    fun ch hch => hascii ch (stripFirst_subset hch)
  unfold rename_system
  by_cases hle : byteLen (stripFirst key) ≤ 23
  · rw [if_pos hle]
    rfl
  · rw [if_neg hle]
    unfold truncateBytes
    rw [if_neg (by omega)]
    have hlen : 20 ≤ (stripFirst key).length := by
      rw [← byteLen_ascii _ hsub]
      omega
    rcases Option.isSome_iff_exists.mp
      (takeBytesExact_ascii _ hsub 20 hlen) with ⟨t, ht⟩
    rw [ht]
    rfl

/-- C10 (witness): the ASCII-totality conjunct applied to a concrete
26-ASCII-char name (longer than the maximum, so the truncation branch
runs and succeeds). -/
theorem c10_witness :
    (rename_system "abcdefghijklmnopqrstuvwxyz".data).isSome = true :=
  c10_truncation_panic.2.2 "abcdefghijklmnopqrstuvwxyz".data (by decide)
